import Mathlib

/-!
Verification of the metric computations of the gans-thesis repository
(`src/utils/metrics/fid.py`, `src/utils/metrics/is.py`, `src/utils/metrics/is_.py`)
and of the `ContractingBlock` constructor (`src/modules/partial/encoding.py`).

Tensors are modelled over the real numbers: a vector is `Fin n → ℝ`, a matrix of
per-sample rows is `Fin m → Fin k → ℝ`, and a square matrix is
`Matrix (Fin n) (Fin n) ℝ`.  Functions from `utils/torch` (`matrix_sqrt`, `cov`),
whose source is not part of the repository snapshot, are taken as parameters of
the definitions that call them.
-/

open scoped BigOperators

/-- `torch.norm` of a vector: the Frobenius (Euclidean) norm, i.e. the square
root of the sum of squared entries. -/
noncomputable def torch_norm {n : ℕ} (v : Fin n → ℝ) : ℝ :=
  Real.sqrt (∑ i, v i ^ 2)

/-- Embedding of `_frechet_distance` (`fid.py`, lines 22-32):
`torch.norm(x_mean - y_mean) ** 2 + torch.trace(x_cov + y_cov - 2 * matrix_sqrt(x_cov @ y_cov))`.
`matrix_sqrt` comes from `utils/torch`, which is outside the repository snapshot,
so it is a parameter. -/
noncomputable def frechet_distance {n : ℕ}
    (matrix_sqrt : Matrix (Fin n) (Fin n) ℝ → Matrix (Fin n) (Fin n) ℝ)
    (x_mean y_mean : Fin n → ℝ) (x_cov y_cov : Matrix (Fin n) (Fin n) ℝ) : ℝ :=
  torch_norm (x_mean - y_mean) ^ 2 +
    Matrix.trace (x_cov + y_cov - (2 : ℝ) • matrix_sqrt (x_cov * y_cov))

/-- `torch.mean(X, dim=0)` / `np.mean(X, axis=0)` on a matrix of `m` rows of
width `k`: the arithmetic mean over the sample dimension. -/
noncomputable def torch_mean_dim0 {m k : ℕ} (X : Fin m → Fin k → ℝ) : Fin k → ℝ :=
  fun j => (∑ i, X i j) / m

/-- The per-row term of `is_.py`, line 97:
`(p_y_given_xi * (p_y_given_xi / p_y).log()).sum()`. -/
noncomputable def kl_row {k : ℕ} (p q : Fin k → ℝ) : ℝ :=
  ∑ j, p j * Real.log (p j / q j)

/-- Embedding of the score computation of `IS.forward` in `is_.py`, lines 90-98:
`p_y = torch.mean(fake_predictions, dim=0)`, per-row KL terms, then
`torch.exp(torch.mean(torch.stack(kls), dim=0))`. -/
noncomputable def is_forward_score {m k : ℕ} (preds : Fin m → Fin k → ℝ) : ℝ :=
  Real.exp ((∑ i, kl_row (preds i) (torch_mean_dim0 preds)) / m)

/-- The Kullback-Leibler divergence `D_kl[p ‖ q] = Σ_j p_j · log(p_j / q_j)`,
stated from the spec's words ("KL-divergence-based Inception Score"). -/
noncomputable def spec_kl_div {k : ℕ} (p q : Fin k → ℝ) : ℝ :=
  ∑ j, p j * Real.log (p j / q j)

/-- The arithmetic mean of the rows of a matrix, stated from the spec's words
("p(y) is the arithmetic mean of all rows"). -/
noncomputable def spec_row_mean {m k : ℕ} (X : Fin m → Fin k → ℝ) : Fin k → ℝ :=
  fun j => (∑ i, X i j) / m

/-- `scipy.stats.entropy(pk, qk)` with natural base: both arguments are
normalized to sum to 1 and the sum of `pk · log(pk / qk)` is returned. -/
noncomputable def scipy_entropy {k : ℕ} (pk qk : Fin k → ℝ) : ℝ :=
  ∑ j, (pk j / ∑ j2, pk j2) *
    Real.log ((pk j / ∑ j2, pk j2) / (qk j / ∑ j2, qk j2))

/-- Embedding of the score computation of `IS.forward` in `is.py`, lines 86-93:
`p_y = np.mean(fake_predictions, axis=0)`, `kls = [entropy(p, p_y) for p ...]`,
then `np.exp(np.mean(kls))`. -/
noncomputable def is_np_forward_score {m k : ℕ} (preds : Fin m → Fin k → ℝ) : ℝ :=
  Real.exp ((∑ i, scipy_entropy (preds i) (torch_mean_dim0 preds)) / m)

/-- C1: for mean vectors of equal dimension and square covariance matrices of
that dimension, `_frechet_distance` returns the squared Euclidean norm of the
difference of the means plus the trace of
`x_cov + y_cov - 2 * matrix_sqrt(x_cov @ y_cov)`. -/
theorem frechet_distance_spec {n : ℕ}
    (matrix_sqrt : Matrix (Fin n) (Fin n) ℝ → Matrix (Fin n) (Fin n) ℝ)
    (x_mean y_mean : Fin n → ℝ) (x_cov y_cov : Matrix (Fin n) (Fin n) ℝ) :
    frechet_distance matrix_sqrt x_mean y_mean x_cov y_cov =
      (∑ i, (x_mean i - y_mean i) ^ 2) +
        Matrix.trace (x_cov + y_cov - (2 : ℝ) • matrix_sqrt (x_cov * y_cov)) := by
  unfold frechet_distance torch_norm
  rw [Real.sq_sqrt (Finset.sum_nonneg fun i _ => sq_nonneg _)]
  simp [Pi.sub_apply]

/-- C2: for every non-empty matrix of per-sample class-probability rows, the
score returned by `IS.forward` in `is_.py` equals the exponential of the mean
over samples of the KL divergence of each row against the arithmetic mean of
all rows. -/
theorem is_forward_score_spec {m k : ℕ} (preds : Fin (m + 1) → Fin k → ℝ) :
    is_forward_score preds =
      Real.exp ((∑ i, spec_kl_div (preds i) (spec_row_mean preds)) / ((m : ℝ) + 1)) := by
  unfold is_forward_score kl_row spec_kl_div spec_row_mean torch_mean_dim0
  push_cast
  rfl

/-- C3: on a matrix of prediction rows that are non-negative and sum to 1, the
`is.py` computation (scipy entropy of each row against the mean row, then exp
of the mean) and the `is_.py` computation (per-row `Σ p·log(p/p_y)`, then exp of
the mean) yield the same value. -/
theorem is_scores_agree {m k : ℕ} (preds : Fin m → Fin k → ℝ)
    (hnn : ∀ i j, 0 ≤ preds i j) (hsum : ∀ i, ∑ j, preds i j = 1) :
    is_np_forward_score preds = is_forward_score preds := by
  rcases Nat.eq_zero_or_pos m with hm | hm
  · subst hm
    simp [is_np_forward_score, is_forward_score]
  · have hq : (∑ j, torch_mean_dim0 preds j) = 1 := by
      unfold torch_mean_dim0
      rw [← Finset.sum_div, Finset.sum_comm]
      simp [hsum]
      rw [div_self]
      exact Nat.cast_ne_zero.mpr hm.ne'
    unfold is_np_forward_score is_forward_score
    congr 2
    apply Finset.sum_congr rfl
    intro i _
    unfold scipy_entropy kl_row
    simp [hsum i, hq]

/-- Closed witness for `is_scores_agree` at the one-row, one-class matrix whose
single entry is 1. -/
theorem is_scores_agree_witness :
    is_np_forward_score (fun _ : Fin 1 => fun _ : Fin 1 => (1 : ℝ)) =
      is_forward_score (fun _ : Fin 1 => fun _ : Fin 1 => (1 : ℝ)) :=
  is_scores_agree (fun _ _ => 1) (fun _ _ => zero_le_one)
    (fun _ => by simp)

/-- The attributes a `FID` instance stores (`fid.py`, lines 60-82): the device
string, the sample and batch counts, and the Inception network (abstract type
`ι`). -/
structure FIDState (ι : Type) where
  device : String
  n_samples : ℕ
  batch_size : ℕ
  inception : ι

/-- The attributes an `IS` instance stores (`is_.py`, lines 23-38): the `FID`
attributes plus the softmax-capped network `inception_sm`. -/
structure ISState (ι σ : Type) where
  device : String
  n_samples : ℕ
  batch_size : ℕ
  inception : ι
  inception_sm : σ

/-- Embedding of the loop of `FID.get_embeddings` (`fid.py`, lines 103-136).
A dataloader batch is a `List α`; `inceptB st b` stands for the real-embedding
rows `inception(InceptionV3Transforms(target_output))` computed from batch `b`,
and `fakeB st b` for the fake-embedding rows computed from the generator inputs
built from the same batch.  The loop breaks at the first batch at which
`cur_samples >= n_samples`, otherwise appends both embedding batches and adds
`cur_batch_size = len(target_output)` to `cur_samples`; the instance state is
threaded through unchanged (the method never assigns to `self`). -/
def fid_get_embeddings {ι α γ : Type} (st : FIDState ι)
    (inceptB fakeB : FIDState ι → List α → List γ) :
    List (List α) → ℕ → List γ × List γ × FIDState ι
  | [], _ => ([], [], st)
  | b :: bs, cur =>
    if st.n_samples ≤ cur then ([], [], st)
    else
      let rest := fid_get_embeddings st inceptB fakeB bs (cur + b.length)
      (inceptB st b ++ rest.1, fakeB st b ++ rest.2.1, rest.2.2)

/-- The batches actually consumed by the `get_embeddings` loop before it stops:
a batch is consumed iff the running sample count at its turn is still below
`n`. -/
def consumed_batches {α : Type} (n : ℕ) : List (List α) → ℕ → List (List α)
  | [], _ => []
  | b :: bs, cur =>
    if n ≤ cur then [] else b :: consumed_batches n bs (cur + b.length)

/-- `torch.mean(X, dim=0)` on a list of embedding rows. -/
noncomputable def list_mean {k : ℕ} (l : List (Fin k → ℝ)) : Fin k → ℝ :=
  fun j => (l.map fun r => r j).sum / l.length

/-- The statistics-aggregation and scoring tail of `FID.forward` (`fid.py`,
lines 164-171): means over the sample dimension, covariance matrices via `cov`
(from `utils/torch`, outside the snapshot, hence a parameter), then
`_frechet_distance` of the four statistics. -/
noncomputable def fid_forward_score {k : ℕ}
    (cov : List (Fin k → ℝ) → Matrix (Fin k) (Fin k) ℝ)
    (matrix_sqrt : Matrix (Fin k) (Fin k) ℝ → Matrix (Fin k) (Fin k) ℝ)
    (real_embeddings fake_embeddings : List (Fin k → ℝ)) : ℝ :=
  frechet_distance matrix_sqrt (list_mean real_embeddings)
    (list_mean fake_embeddings) (cov real_embeddings) (cov fake_embeddings)

/-- Embedding of `FID.forward` (`fid.py`, lines 138-171): extract the real and
fake embeddings with `get_embeddings`, then score them with
`fid_forward_score`; the instance state comes back out of the loop. -/
noncomputable def fid_forward {ι α : Type} {k : ℕ} (st : FIDState ι)
    (inceptB fakeB : FIDState ι → List α → List (Fin k → ℝ))
    (cov : List (Fin k → ℝ) → Matrix (Fin k) (Fin k) ℝ)
    (matrix_sqrt : Matrix (Fin k) (Fin k) ℝ → Matrix (Fin k) (Fin k) ℝ)
    (batches : List (List α)) : ℝ × FIDState ι :=
  let e := fid_get_embeddings st inceptB fakeB batches 0
  (fid_forward_score cov matrix_sqrt e.1 e.2.1, e.2.2)

/-- Embedding of the accumulation loop of `IS.forward` (`is_.py`, lines 64-88):
`predB st b` stands for the prediction rows
`inception_sm(InceptionV3Transforms(fake_output))` computed from batch `b`; the
loop breaks at the first batch at which `cur_samples >= n_samples`. -/
def is_forward_loop {ι σ α γ : Type} (st : ISState ι σ)
    (predB : ISState ι σ → List α → List γ) :
    List (List α) → ℕ → List γ × ISState ι σ
  | [], _ => ([], st)
  | b :: bs, cur =>
    if st.n_samples ≤ cur then ([], st)
    else
      let rest := is_forward_loop st predB bs (cur + b.length)
      (predB st b ++ rest.1, rest.2)

/-- Embedding of `IS.forward` (`is_.py`, lines 41-98): accumulate the fake
predictions, concatenate them, then compute the score of lines 90-98. -/
noncomputable def is_forward_model {ι σ α : Type} {k : ℕ} (st : ISState ι σ)
    (predB : ISState ι σ → List α → List (Fin k → ℝ))
    (batches : List (List α)) : ℝ × ISState ι σ :=
  let r := is_forward_loop st predB batches 0
  (is_forward_score (fun i : Fin r.1.length => r.1.get i), r.2)

theorem fid_get_embeddings_state {ι α γ : Type} (st : FIDState ι)
    (inceptB fakeB : FIDState ι → List α → List γ)
    (batches : List (List α)) (cur : ℕ) :
    (fid_get_embeddings st inceptB fakeB batches cur).2.2 = st := by
  induction batches generalizing cur with
  | nil => rfl
  | cons b bs ih =>
    unfold fid_get_embeddings
    split
    · rfl
    · exact ih (cur + b.length)

theorem is_forward_loop_state {ι σ α γ : Type} (st : ISState ι σ)
    (predB : ISState ι σ → List α → List γ)
    (batches : List (List α)) (cur : ℕ) :
    (is_forward_loop st predB batches cur).2 = st := by
  induction batches generalizing cur with
  | nil => rfl
  | cons b bs ih =>
    unfold is_forward_loop
    split
    · rfl
    · exact ih (cur + b.length)

theorem fid_get_embeddings_real_rows {ι α γ : Type} (st : FIDState ι)
    (inceptB fakeB : FIDState ι → List α → List γ)
    (hlen : ∀ b, (inceptB st b).length = b.length)
    (batches : List (List α)) (cur : ℕ) :
    (fid_get_embeddings st inceptB fakeB batches cur).1.length =
      ((consumed_batches st.n_samples batches cur).map List.length).sum := by
  induction batches generalizing cur with
  | nil => rfl
  | cons b bs ih =>
    unfold fid_get_embeddings consumed_batches
    split
    · rfl
    · simp [List.length_append, hlen, ih (cur + b.length)]

theorem consumed_batches_total_ge {α : Type} (n : ℕ) (batches : List (List α))
    (cur : ℕ) (h : n ≤ cur + (batches.map List.length).sum) :
    n ≤ cur + ((consumed_batches n batches cur).map List.length).sum := by
  induction batches generalizing cur with
  | nil => simpa using h
  | cons b bs ih =>
    unfold consumed_batches
    split
    · next hn => omega
    · next hn =>
      have h2 := ih (cur + b.length) (by simp at h ⊢; omega)
      simp at h2 ⊢
      omega

theorem consumed_batches_total_le {α : Type} (n : ℕ) (batches : List (List α))
    (cur : ℕ) (lb : List α)
    (hlast : (consumed_batches n batches cur).getLast? = some lb) :
    cur + ((consumed_batches n batches cur).map List.length).sum ≤
      n + lb.length - 1 := by
  induction batches generalizing cur with
  | nil => simp [consumed_batches] at hlast
  | cons b bs ih =>
    by_cases hn : n ≤ cur
    · simp [consumed_batches, hn] at hlast
    · simp only [consumed_batches, if_neg hn] at hlast ⊢
      rcases hrest : consumed_batches n bs (cur + b.length) with _ | ⟨c, cs⟩
      · rw [hrest] at hlast
        simp at hlast
        subst hlast
        simp [hrest]
        omega
      · rw [hrest] at hlast
        rw [List.getLast?_cons_cons] at hlast
        have h2 := ih (cur + b.length)
        rw [hrest] at h2
        have h3 := h2 hlast
        simp at h3 ⊢
        omega

/-- C4: `FID.forward` is a linear pipeline: it extracts the real and fake
embedding matrices via `get_embeddings`, aggregates each into a mean vector and
a covariance matrix, and returns `_frechet_distance` of those four statistics;
any embedding lists with the same means and covariance matrices as the
extracted ones yield the same returned score. -/
theorem fid_forward_linear_pipeline {ι α : Type} {k : ℕ} (st : FIDState ι)
    (inceptB fakeB : FIDState ι → List α → List (Fin k → ℝ))
    (cov : List (Fin k → ℝ) → Matrix (Fin k) (Fin k) ℝ)
    (matrix_sqrt : Matrix (Fin k) (Fin k) ℝ → Matrix (Fin k) (Fin k) ℝ)
    (batches : List (List α)) (re2 fe2 : List (Fin k → ℝ))
    (hm : list_mean re2 = list_mean (fid_get_embeddings st inceptB fakeB batches 0).1)
    (hm2 : list_mean fe2 = list_mean (fid_get_embeddings st inceptB fakeB batches 0).2.1)
    (hc : cov re2 = cov (fid_get_embeddings st inceptB fakeB batches 0).1)
    (hc2 : cov fe2 = cov (fid_get_embeddings st inceptB fakeB batches 0).2.1) :
    (fid_forward st inceptB fakeB cov matrix_sqrt batches).1 =
      frechet_distance matrix_sqrt (list_mean re2) (list_mean fe2)
        (cov re2) (cov fe2) := by
  unfold fid_forward fid_forward_score
  rw [hm, hm2, hc, hc2]

/-- Closed witness for `fid_forward_linear_pipeline` on an empty dataloader:
the FID score over no batches equals the Fréchet distance of the statistics of
empty embedding lists. -/
theorem fid_forward_linear_pipeline_witness :
    (fid_forward (FIDState.mk "cpu" 512 8 ()) (fun _ _ => ([] : List (Fin 1 → ℝ)))
        (fun _ _ => []) (fun _ => 0) id ([] : List (List Unit))).1 =
      frechet_distance (id : Matrix (Fin 1) (Fin 1) ℝ → Matrix (Fin 1) (Fin 1) ℝ)
        (list_mean ([] : List (Fin 1 → ℝ))) (list_mean ([] : List (Fin 1 → ℝ))) 0 0 :=
  fid_forward_linear_pipeline (FIDState.mk "cpu" 512 8 ()) (fun _ _ => [])
    (fun _ _ => []) (fun _ => 0) id [] [] [] rfl rfl rfl rfl

/-- C5: when the dataloader yields at least `n_samples` sample rows in total,
the `get_embeddings` loop (which stops at the first iteration at which the
running count reaches `n_samples`) collects at least `n_samples` rows and at
most `n_samples` plus the size of the last consumed batch minus 1. -/
theorem fid_get_embeddings_sample_bounds {ι α γ : Type} (st : FIDState ι)
    (inceptB fakeB : FIDState ι → List α → List γ)
    (hlen : ∀ b, (inceptB st b).length = b.length)
    (batches : List (List α)) (lb : List α)
    (htotal : st.n_samples ≤ (batches.map List.length).sum)
    (hlast : (consumed_batches st.n_samples batches 0).getLast? = some lb) :
    st.n_samples ≤ (fid_get_embeddings st inceptB fakeB batches 0).1.length ∧
      (fid_get_embeddings st inceptB fakeB batches 0).1.length ≤
        st.n_samples + lb.length - 1 := by
  rw [fid_get_embeddings_real_rows st inceptB fakeB hlen batches 0]
  constructor
  · simpa using consumed_batches_total_ge st.n_samples batches 0 (by simpa using htotal)
  · simpa using consumed_batches_total_le st.n_samples batches 0 lb hlast

/-- Closed witness for `fid_get_embeddings_sample_bounds`: `n_samples = 3`,
batches of sizes 2 and 2; the loop collects 4 rows, and `3 ≤ 4 ≤ 3 + 2 - 1`. -/
theorem fid_get_embeddings_sample_bounds_witness :
    (3 : ℕ) ≤ (fid_get_embeddings (FIDState.mk "cpu" 3 1 ()) (fun _ b => b)
        (fun _ b => b) [[0, 1], [2, 3]] 0).1.length ∧
      (fid_get_embeddings (FIDState.mk "cpu" 3 1 ()) (fun _ b => b)
        (fun _ b => b) [[0, 1], [2, 3]] 0).1.length ≤ 3 + ([2, 3] : List ℕ).length - 1 :=
  fid_get_embeddings_sample_bounds (FIDState.mk "cpu" 3 1 ()) (fun _ b => b)
    (fun _ b => b) (fun _ => rfl) [[0, 1], [2, 3]] [2, 3] (by decide) (by decide)

/-- C7: a metric computation call leaves the calculator state unchanged: the
state returned by `FID.forward` and by `IS.forward` (`is_.py`) is exactly the
input state, with its `device`, `n_samples`, `batch_size`, `inception` (and,
for IS, `inception_sm`) attributes intact. -/
theorem metric_forward_state_unchanged {ι σ α β : Type} {k : ℕ}
    (st : FIDState ι) (ist : ISState ι σ)
    (inceptB fakeB : FIDState ι → List α → List (Fin k → ℝ))
    (predB : ISState ι σ → List β → List (Fin k → ℝ))
    (cov : List (Fin k → ℝ) → Matrix (Fin k) (Fin k) ℝ)
    (matrix_sqrt : Matrix (Fin k) (Fin k) ℝ → Matrix (Fin k) (Fin k) ℝ)
    (batches : List (List α)) (batches2 : List (List β)) :
    (fid_forward st inceptB fakeB cov matrix_sqrt batches).2 = st ∧
      (is_forward_model ist predB batches2).2 = ist := by
  constructor
  · unfold fid_forward
    exact fid_get_embeddings_state st inceptB fakeB batches 0
  · unfold is_forward_model
    exact is_forward_loop_state ist predB batches2 0

/-- C8: when the per-batch real- and fake-embedding computations both return
one row per sample of the consumed batch (the fake batch is built from exactly
`cur_batch_size` inputs, the real batch's length), the two lists returned by
`get_embeddings` have the same number of rows. -/
theorem fid_get_embeddings_same_rows {ι α γ : Type} (st : FIDState ι)
    (inceptB fakeB : FIDState ι → List α → List γ)
    (hreal : ∀ b, (inceptB st b).length = b.length)
    (hfake : ∀ b, (fakeB st b).length = b.length)
    (batches : List (List α)) (cur : ℕ) :
    (fid_get_embeddings st inceptB fakeB batches cur).1.length =
      (fid_get_embeddings st inceptB fakeB batches cur).2.1.length := by
  induction batches generalizing cur with
  | nil => rfl
  | cons b bs ih =>
    unfold fid_get_embeddings
    split
    · rfl
    · simp [List.length_append, hreal, hfake, ih (cur + b.length)]

/-- Closed witness for `fid_get_embeddings_same_rows` at `n_samples = 3` over
batches of sizes 2 and 2. -/
theorem fid_get_embeddings_same_rows_witness :
    (fid_get_embeddings (FIDState.mk "cpu" 3 1 ()) (fun _ b => b) (fun _ b => b)
        [[0, 1], [2, 3]] 0).1.length =
      (fid_get_embeddings (FIDState.mk "cpu" 3 1 ()) (fun _ b => b) (fun _ b => b)
        [[0, 1], [2, 3]] 0).2.1.length :=
  fid_get_embeddings_same_rows (FIDState.mk "cpu" 3 1 ()) (fun _ b => b)
    (fun _ b => b) (fun _ => rfl) (fun _ => rfl) [[0, 1], [2, 3]] 0

/-- Error-monad embedding of `FID.forward` (`fid.py`, lines 156-171): each
library call (embedding extraction, `torch.mean`, `cov`, `_frechet_distance`)
may fail with a library error of type `ε`; the method body itself is a plain
composition, with no validation, no `try/except` and no `raise` of its own. -/
def fid_forwardE {ε P V M R : Type} (getEmbE : Except ε (P × P))
    (meanE : P → Except ε V) (covE : P → Except ε M)
    (frechetE : V → V → M → M → Except ε R) : Except ε R := do
  let e ← getEmbE
  let rm ← meanE e.1
  let fm ← meanE e.2
  let rc ← covE e.1
  let fc ← covE e.2
  frechetE rm fm rc fc

/-- Error-monad embedding of either `IS.forward`: accumulate the predictions
(a sequence of library calls), then compute the score (more library calls);
no validation, no `try/except`, no `raise` of its own. -/
def is_forwardE {ε P R : Type} (predsE : Except ε P)
    (scoreE : P → Except ε R) : Except ε R := do
  let p ← predsE
  scoreE p

/-- Error-monad embedding of the `FID.get_embeddings` loop: `stepE b` is the
pair of library calls computing real and fake embedding rows from batch `b`,
each of which may fail. -/
def fid_get_embeddingsE {ε α γ : Type} (n : ℕ)
    (stepE : List α → Except ε (List γ × List γ)) :
    List (List α) → ℕ → Except ε (List γ × List γ)
  | [], _ => Except.ok ([], [])
  | b :: bs, cur =>
    if n ≤ cur then Except.ok ([], [])
    else do
      let rf ← stepE b
      let rest ← fid_get_embeddingsE n stepE bs (cur + b.length)
      Except.ok (rf.1 ++ rest.1, rf.2 ++ rest.2)

/-- Whether an `Except` result is a success. -/
def except_is_ok {ε α : Type} : Except ε α → Bool
  | Except.ok _ => true
  | Except.error _ => false

theorem fid_get_embeddingsE_ok {ε α γ : Type} (n : ℕ)
    (stepE : List α → Except ε (List γ × List γ))
    (hstep : ∀ b, ∃ out, stepE b = Except.ok out)
    (batches : List (List α)) (cur : ℕ) :
    except_is_ok (fid_get_embeddingsE n stepE batches cur) = true := by
  induction batches generalizing cur with
  | nil => rfl
  | cons b bs ih =>
    by_cases hn : n ≤ cur
    · simp [fid_get_embeddingsE, hn, except_is_ok]
    · obtain ⟨out1, h1⟩ := hstep b
      have h2 := ih (cur + b.length)
      rcases hrest : fid_get_embeddingsE n stepE bs (cur + b.length) with e2 | out2
      · rw [hrest] at h2
        simp [except_is_ok] at h2
      · simp only [fid_get_embeddingsE, if_neg hn, h1, hrest]
        rfl

/-- C6: in the error-monad model, neither `FID.forward`, `FID.get_embeddings`
nor either `IS.forward` validates inputs, catches exceptions or raises errors
of its own: a failing library call's error is returned exactly as raised, and
when every library call succeeds the result is exactly the library composite's
value, with no further failure introduced by the methods themselves. -/
theorem metrics_error_propagation {ε P V M R P2 R2 α γ : Type} (e : ε)
    (meanE : P → Except ε V) (covE : P → Except ε M)
    (frechetE : V → V → M → M → Except ε R)
    (re fe : P) (rm fm : V) (rc fc : M)
    (hm : meanE re = Except.ok rm) (hm2 : meanE fe = Except.ok fm)
    (hc : covE re = Except.ok rc) (hc2 : covE fe = Except.ok fc)
    (scoreE : P2 → Except ε R2) (p : P2) (n : ℕ)
    (stepE1 stepE2 : List α → Except ε (List γ × List γ))
    (hstep : ∀ b2, ∃ out, stepE1 b2 = Except.ok out)
    (b : List α) (bs batches : List (List α)) (cur : ℕ)
    (hb : stepE2 b = Except.error e) (hn : 0 < n) :
    fid_forwardE (Except.error e) meanE covE frechetE = Except.error e ∧
      fid_forwardE (Except.ok (re, fe)) meanE covE frechetE = frechetE rm fm rc fc ∧
      is_forwardE (Except.error e) scoreE = Except.error e ∧
      is_forwardE (Except.ok p) scoreE = scoreE p ∧
      fid_get_embeddingsE n stepE2 (b :: bs) 0 = Except.error e ∧
      except_is_ok (fid_get_embeddingsE n stepE1 batches cur) = true := by
  refine ⟨rfl, ?_, rfl, rfl, ?_, ?_⟩
  · show (Except.bind (meanE re) fun rm2 => Except.bind (meanE fe) fun fm2 =>
        Except.bind (covE re) fun rc2 => Except.bind (covE fe) fun fc2 =>
          frechetE rm2 fm2 rc2 fc2) = frechetE rm fm rc fc
    rw [hm]
    show (Except.bind (meanE fe) fun fm2 => Except.bind (covE re) fun rc2 =>
        Except.bind (covE fe) fun fc2 => frechetE rm fm2 rc2 fc2) = frechetE rm fm rc fc
    rw [hm2]
    show (Except.bind (covE re) fun rc2 => Except.bind (covE fe) fun fc2 =>
        frechetE rm fm rc2 fc2) = frechetE rm fm rc fc
    rw [hc]
    show (Except.bind (covE fe) fun fc2 => frechetE rm fm rc fc2) = frechetE rm fm rc fc
    rw [hc2]
    rfl
  · have h0 : ¬ n ≤ 0 := by omega
    simp only [fid_get_embeddingsE, if_neg h0, hb]
    rfl
  · exact fid_get_embeddingsE_ok n stepE1 hstep batches cur

/-- Closed witness for `metrics_error_propagation` with natural-number
payloads: the injected library error 7 surfaces unmodified from every method,
and all-successful library calls yield the library composite's value. -/
theorem metrics_error_propagation_witness :
    fid_forwardE (Except.error (7 : ℕ)) (fun _ : ℕ => Except.ok (0 : ℕ))
        (fun _ => Except.ok (1 : ℕ)) (fun _ _ _ _ => Except.ok (5 : ℕ)) =
        Except.error 7 ∧
      fid_forwardE (Except.ok ((0 : ℕ), (0 : ℕ))) (fun _ => Except.ok (0 : ℕ))
        (fun _ => Except.ok (1 : ℕ)) (fun _ _ _ _ => Except.ok (5 : ℕ)) =
        (Except.ok 5 : Except ℕ ℕ) ∧
      is_forwardE (Except.error (7 : ℕ)) (fun q : ℕ => Except.ok q) =
        Except.error 7 ∧
      is_forwardE (Except.ok (2 : ℕ)) (fun q : ℕ => Except.ok q) =
        (Except.ok 2 : Except ℕ ℕ) ∧
      fid_get_embeddingsE 3
        (fun _ : List ℕ => (Except.error 7 : Except ℕ (List ℕ × List ℕ)))
        [[0]] 0 = Except.error 7 ∧
      except_is_ok (fid_get_embeddingsE 3
        (fun b2 : List ℕ => (Except.ok (b2, b2) : Except ℕ (List ℕ × List ℕ)))
        [[1]] 0) = true :=
  metrics_error_propagation 7 (fun _ => Except.ok 0) (fun _ => Except.ok 1)
    (fun _ _ _ _ => Except.ok 5) 0 0 0 0 1 1 rfl rfl rfl rfl
    (fun q => Except.ok q) 2 3 (fun b2 => Except.ok (b2, b2))
    (fun _ => Except.error 7) (fun b2 => ⟨(b2, b2), rfl⟩) [0] [] [[1]] 0 rfl
    (by decide)

/-- Embedding of the `c_out` computation of `ContractingBlock.__init__`
(`encoding.py`, line 27): `c_out = c_in * 2 if not c_out else c_out`, where
the argument defaults to `None` and Python's `not c_out` is true both for
`None` and for `0`. -/
def contracting_block_c_out (c_in : ℕ) (c_out : Option ℕ) : ℕ :=
  match c_out with
  | none => c_in * 2
  | some c => if c = 0 then c_in * 2 else c

/-- C9: a `ContractingBlock` built with `c_out = None` gets `2 * c_in` output
channels on its convolution; the same holds when `c_out` is passed as `0`
(the constructor tests `not c_out`, not `c_out is None`), so for a positive
input channel count no caller can obtain a zero-channel output. -/
theorem contracting_block_c_out_spec (c_in : ℕ) (co : Option ℕ) (h : 0 < c_in) :
    contracting_block_c_out c_in none = 2 * c_in ∧
      contracting_block_c_out c_in (some 0) = 2 * c_in ∧
      0 < contracting_block_c_out c_in co := by
  refine ⟨by simp [contracting_block_c_out, Nat.mul_comm],
    by simp [contracting_block_c_out, Nat.mul_comm], ?_⟩
  cases co with
  | none => simp [contracting_block_c_out]; omega
  | some c =>
    by_cases hc : c = 0 <;> simp [contracting_block_c_out, hc] <;> omega

/-- Closed witness for `contracting_block_c_out_spec` at `c_in = 3`,
`c_out = some 5`. -/
theorem contracting_block_c_out_spec_witness :
    contracting_block_c_out 3 none = 2 * 3 ∧
      contracting_block_c_out 3 (some 0) = 2 * 3 ∧
      0 < contracting_block_c_out 3 (some 5) :=
  contracting_block_c_out_spec 3 (some 5) (by decide)

/-- The final layer of the Inception v3 network: either the pretrained
fully-connected classification layer or the `nn.Identity()` that replaces it. -/
inductive InceptionFC where
  | fullyConnected : InceptionFC
  | identityLayer : InceptionFC
deriving DecidableEq

/-- The Inception network as far as the constructors manipulate it: its final
`fc` layer. -/
structure InceptionModel where
  fc : InceptionFC
deriving DecidableEq

/-- The `crop_fc` handling of `FID.__init__` (`fid.py`, lines 49-78): when
`crop_fc` is set, `self.inception.fc = nn.Identity()`; otherwise the
fully-connected layer is kept. -/
def FID_init_inception (crop_fc : Bool) : InceptionModel :=
  { fc := if crop_fc then InceptionFC.identityLayer else InceptionFC.fullyConnected }

/-- The default value of the `crop_fc` argument of `FID.__init__`
(`fid.py`, line 50). -/
def FID_default_crop_fc : Bool := true

/-- `IS.__init__` (`is_.py` and `is.py`, lines 23-38) calls the `FID`
constructor with `crop_fc=False`. -/
def IS_init_inception : InceptionModel := FID_init_inception false

/-- A layer of the `nn.Sequential` the `IS` constructor builds. -/
inductive ISLayer where
  | inceptionNet : InceptionModel → ISLayer
  | softmaxDim : ℕ → ISLayer
deriving DecidableEq

/-- `self.inception_sm = nn.Sequential(self.inception, nn.Softmax(dim=1))`
(`is_.py` and `is.py`, lines 35-38). -/
def IS_init_inception_sm : List ISLayer :=
  [ISLayer.inceptionNet IS_init_inception, ISLayer.softmaxDim 1]

/-- `nn.Softmax(dim=1)` applied to one row of class logits. -/
noncomputable def softmax_row {k : ℕ} (x : Fin k → ℝ) : Fin k → ℝ :=
  fun j => Real.exp (x j) / ∑ j2, Real.exp (x j2)

/-- C10: the `IS` constructor calls the `FID` constructor with `crop_fc=False`,
so its Inception network keeps the fully-connected classification layer and
`inception_sm` appends a softmax over dimension 1 producing class-probability
rows (non-negative, summing to 1); a `FID` built with the default
`crop_fc=True` replaces the fully-connected layer with the identity. -/
theorem is_init_keeps_fc (k : ℕ) (x : Fin (k + 1) → ℝ) :
    IS_init_inception.fc = InceptionFC.fullyConnected ∧
      IS_init_inception_sm =
        [ISLayer.inceptionNet IS_init_inception, ISLayer.softmaxDim 1] ∧
      (FID_init_inception FID_default_crop_fc).fc = InceptionFC.identityLayer ∧
      (∀ j, 0 ≤ softmax_row x j) ∧ (∑ j, softmax_row x j) = 1 := by
  refine ⟨rfl, rfl, rfl, ?_, ?_⟩
  · intro j
    exact div_nonneg (Real.exp_nonneg _)
      (Finset.sum_nonneg fun _ _ => Real.exp_nonneg _)
  · have hpos : 0 < ∑ j2, Real.exp (x j2) :=
      Finset.sum_pos (fun _ _ => Real.exp_pos _) Finset.univ_nonempty
    unfold softmax_row
    rw [← Finset.sum_div, div_self hpos.ne']
